import Mathlib

/-!
# opendlv-gw-seaman: command frames and telemetry text

A shallow embedding of `src/opendlv-gw-seaman.cpp`: the six captured request
variables, the `PedalPositionRequest` handler (channel dispatch, scaling, frame
packing, send), the endpoints chosen by `main`, and the text construction and
decoding done by one iteration of the telemetry loop.
-/

set_option autoImplicit false

namespace Seaman

/-! ## Data model -/

/-- One octet (`uint8_t`, `char`). -/
abbrev Byte := Fin 256

/-- The values of the C++ type `int16_t`. -/
abbrev I16 := {x : Int // -32768 ≤ x ∧ x ≤ 32767}

/-- The `int16_t` zero the request variables are initialised with. -/
def I16.zero : I16 := ⟨0, by decide⟩

/-- Build an `int16_t` from an integer literal in range, used to write concrete states. -/
def I16.ofInt (x : Int) (h : -32768 ≤ x ∧ x ≤ 32767) : I16 := ⟨x, h⟩

/-- The six request variables captured by reference by the handler (lines 44-49). -/
structure Requests where
  starboardEngineRequest : I16
  portEngineRequest : I16
  starboardRudderRequest : I16
  portRudderRequest : I16
  tunnerThruster1Request : I16
  tunnerThruster2Request : I16
deriving DecidableEq

/-- The state `main` starts with: every request variable is 0 (lines 44-49). -/
def Requests.initial : Requests :=
  ⟨I16.zero, I16.zero, I16.zero, I16.zero, I16.zero, I16.zero⟩

/-- The six values in the order the frame carries them (lines 87-92). -/
def Requests.snapshot (r : Requests) : List Int :=
  [r.starboardEngineRequest.val, r.portEngineRequest.val, r.starboardRudderRequest.val,
   r.portRudderRequest.val, r.tunnerThruster1Request.val, r.tunnerThruster2Request.val]

/-- The value held for sender stamp `c`; stamps above 5 own no variable and read as 0. -/
def Requests.channel (r : Requests) (c : Nat) : Int :=
  (r.snapshot.getD c 0)

/-- The assignment chain of lines 59-71 with the assigned value `v` already computed: the
variable selected by `SENDER_STAMP` receives `v`, any other stamp falls through all six
tests and assigns nothing. -/
def set (r : Requests) (SENDER_STAMP : Nat) (v : I16) : Requests :=
  if 0 = SENDER_STAMP then { r with starboardEngineRequest := v }
  else if 1 = SENDER_STAMP then { r with portEngineRequest := v }
  else if 2 = SENDER_STAMP then { r with starboardRudderRequest := v }
  else if 3 = SENDER_STAMP then { r with portRudderRequest := v }
  else if 4 = SENDER_STAMP then { r with tunnerThruster1Request := v }
  else if 5 = SENDER_STAMP then { r with tunnerThruster2Request := v }
  else r

/-! ## Frame packing (lines 83-95) -/

/-- The 16 bits of an `int16_t` object, as an unsigned number (two's complement). -/
def I16.bits (x : I16) : Nat := (x.val % 65536).toNat

/-- First byte in memory of an `int16_t` on a little-endian host. -/
def I16.byte0 (x : I16) : Byte := ⟨x.bits % 256, Nat.mod_lt _ (by decide)⟩

/-- Second byte in memory of an `int16_t` on a little-endian host. -/
def I16.byte1 (x : I16) : Byte := ⟨x.bits / 256 % 256, Nat.mod_lt _ (by decide)⟩

/-- The call `memcpy(buffer + offset, &x, 2)` on the 16-byte frame buffer. -/
def memcpy (buffer : Fin 16 → Byte) (offset : Fin 16) (x : I16) : Fin 16 → Byte :=
  Function.update (Function.update buffer offset x.byte0) (offset + 1) x.byte1

/-- Lines 83-94. `stack` is what the 16 bytes of the local array `buffer` hold when the
handler is entered: the array is declared without an initialiser. The result is the
`std::string output` built from all `DATA_LENGTH` bytes. -/
def encode (stack : Fin 16 → Byte) (r : Requests) : List Byte :=
  let buffer := Function.update stack 0 1
  let buffer := Function.update buffer 1 7
  let buffer := memcpy buffer 2 r.starboardEngineRequest
  let buffer := memcpy buffer 4 r.portEngineRequest
  let buffer := memcpy buffer 6 r.starboardRudderRequest
  let buffer := memcpy buffer 8 r.portRudderRequest
  let buffer := memcpy buffer 10 r.tunnerThruster1Request
  let buffer := memcpy buffer 12 r.tunnerThruster2Request
  List.ofFn buffer

/-- How the receiver of a frame reads two consecutive bytes as a little-endian signed
16-bit integer. -/
def decodeInt16LE (lo hi : Byte) : Int :=
  let u : Int := lo.val + 256 * hi.val
  if u < 32768 then u else u - 65536

/-! ## Scaling (lines 60-70)

`position()` returns a C++ `float` (the field is `float position` in the OpenDLV standard
message set); in `position() * 100.0` it is converted to `double`, which is exact, and
multiplied in binary64 arithmetic; `static_cast<int16_t>` then discards the fraction. -/

/-- An IEEE 754 binary32 datum, by its sign bit, 8 exponent bits and 23 fraction bits. -/
structure Binary32 where
  sign : Bool
  exponent : Fin 256
  fraction : Fin 8388608
deriving DecidableEq

/-- The number a binary32 datum denotes; `none` for the infinities and NaNs. -/
def Binary32.toRat? (x : Binary32) : Option ℚ :=
  if x.exponent.val = 255 then none
  else
    let significand : ℚ :=
      if x.exponent.val = 0 then (x.fraction.val : ℚ) else 8388608 + (x.fraction.val : ℚ)
    let e : Int := (if x.exponent.val = 0 then 1 else (x.exponent.val : Int)) - 150
    some ((if x.sign then -1 else 1) * significand * 2 ^ e)

/-- Nearest integer, a tie going to the even neighbour. -/
def roundHalfEven (q : ℚ) : Int :=
  let f : Int := ⌊q⌋
  if q - f < 1 / 2 then f
  else if 1 / 2 < q - f then f + 1
  else if f % 2 = 0 then f else f + 1

/-- Binary exponent of the last significand bit binary64 keeps at the magnitude of `q ≠ 0`:
52 places below the leading bit, and never below the subnormal step `2 ^ (-1074)`. -/
def ulpExponent (q : ℚ) : Int := max (Int.log 2 |q| - 52) (-1074)

/-- Rounding of a rational to binary64 (round to nearest, ties to even); `none` when the
result overflows to an infinity. -/
def roundBinary64 (q : ℚ) : Option ℚ :=
  if q = 0 then some 0
  else
    let e := ulpExponent q
    let r : ℚ := (roundHalfEven (q / 2 ^ e) : ℚ) * 2 ^ e
    if |r| < 2 ^ 1024 then some r else none

/-- The `double` value of `PEDAL_POSITION_REQUEST.position() * 100.0`; `none` when it is an
infinity or a NaN. -/
def times100 (position : Binary32) : Option ℚ :=
  match position.toRat? with
  | none => none
  | some p => roundBinary64 (p * 100)

/-- Truncation toward zero. -/
def truncate (q : ℚ) : Int := if 0 ≤ q then ⌊q⌋ else ⌈q⌉

/-- The conversion `static_cast<int16_t>(d)` of a `double`. The fraction is discarded; when the
truncated value is not an `int16_t` (or `d` is not finite) C++ leaves the result undefined,
and `undef d` stands for the 16 bits the platform then leaves in the variable. -/
def static_cast_int16 (undef : Option ℚ → I16) (d : Option ℚ) : I16 :=
  match d with
  | none => undef d
  | some q =>
    if h : -32768 ≤ truncate q ∧ truncate q ≤ 32767 then ⟨truncate q, h⟩ else undef d

/-! ## The handler (lines 53-96) -/

/-- What the handler reads from a delivered `cluon::data::Envelope`: the sender stamp
(a `uint32_t`) and the `position` field of the contained `PedalPositionRequest`. -/
structure Envelope where
  senderStamp : Nat
  position : Binary32

/-- What one call of the handler leaves behind: the request variables, the lines written to
`std::cout`, and the datagrams passed to `sender.send`, in order. -/
structure Handled where
  requests : Requests
  console : List String
  sent : List (List Byte)

/-- The lambda `onPedalPositionRequest`: dispatch on the sender stamp and store the scaled
position (lines 57-71), print the six values under `VERBOSE` (lines 73-81), pack the frame and
hand it to `sender.send` (lines 83-95). -/
def onPedalPositionRequest (VERBOSE : Bool) (undef : Option ℚ → I16) (stack : Fin 16 → Byte)
    (r : Requests) (envelope : Envelope) : Handled :=
  let SENDER_STAMP := envelope.senderStamp
  let r := set r SENDER_STAMP (static_cast_int16 undef (times100 envelope.position))
  let console :=
    if VERBOSE then
      ["Sending:",
       " .. starboard engine request: " ++ toString r.starboardEngineRequest.val,
       " .. port engine request: " ++ toString r.portEngineRequest.val,
       " .. starboard rudder request: " ++ toString r.starboardRudderRequest.val,
       " .. port rudder request: " ++ toString r.portRudderRequest.val,
       " .. tunner thruster 1 request: " ++ toString r.tunnerThruster1Request.val,
       " .. tunner thruster 2 request: " ++ toString r.tunnerThruster2Request.val]
    else []
  let output := encode stack r
  ⟨r, console, [output]⟩

/-- One delivery by the session: the envelope, and the bytes found in the handler's local
frame buffer on entry. -/
structure Delivery where
  envelope : Envelope
  stack : Fin 16 → Byte

/-- The handler run on a sequence of deliveries, one after the other. -/
def deliverAll (VERBOSE : Bool) (undef : Option ℚ → I16) (r : Requests) :
    List Delivery → Requests × List (List Byte)
  | [] => (r, [])
  | d :: ds =>
    let step := onPedalPositionRequest VERBOSE undef d.stack r d.envelope
    let rest := deliverAll VERBOSE undef step.requests ds
    (rest.1, step.sent ++ rest.2)

/-- A sequence of `set` calls applied in order. -/
def setAll (r : Requests) : List (Nat × I16) → Requests
  | [] => r
  | (c, v) :: calls => setAll (set r c v) calls

/-! ## Endpoints chosen by `main` (lines 31-51, 98-106) -/

/-- Line 41. -/
def TCP_PORT : Nat := 43000

/-- Line 42. -/
def UDP_PORT : Nat := 8888

/-- `commandlineArguments.count(key)` on the `std::map` of parsed arguments. -/
def count (commandlineArguments : List (String × String)) (key : String) : Nat :=
  if commandlineArguments.any (fun kv => kv.1 = key) then 1 else 0

/-- `commandlineArguments[key]`. -/
def lookup (commandlineArguments : List (String × String)) (key : String) : String :=
  match commandlineArguments.find? (fun kv => kv.1 = key) with
  | some kv => kv.2
  | none => ""

/-- What `main` has set up when it reaches the telemetry loop. -/
structure Gateway where
  VERBOSE : Bool
  CID : Nat
  senderHost : String
  senderPort : Nat
  ZMQ_ADDRESS : String
deriving DecidableEq

/-- How the start of `main` ends. -/
inductive Startup
  | usage (retCode : Int)
  | stoiFailed
  | running (g : Gateway)
deriving DecidableEq

/-- Lines 31-51 and 101-105. `stoi` is `std::stoi` (`none` when it throws). The sender is
`cluon::UDPSender sender{SEAMAN_IP, UDP_PORT}`; the subscriber connects to `ZMQ_ADDRESS`. -/
def mainSetup (stoi : String → Option Int) (commandlineArguments : List (String × String)) :
    Startup :=
  if 0 = count commandlineArguments "cid" ∨ 0 = count commandlineArguments "seaman_ip" then
    Startup.usage 1
  else
    match stoi (lookup commandlineArguments "cid") with
    | none => Startup.stoiFailed
    | some n =>
      let SEAMAN_IP := lookup commandlineArguments "seaman_ip"
      Startup.running
        { VERBOSE := count commandlineArguments "verbose" != 0
          CID := (n % 65536).toNat
          senderHost := SEAMAN_IP
          senderPort := UDP_PORT
          ZMQ_ADDRESS := "tcp://" ++ SEAMAN_IP ++ ":" ++ toString TCP_PORT }

/-! ## One iteration of the telemetry loop (lines 108-124) -/

/-- The call `zmq_recv(subscriber, buffer, 1024, 0)`. `memory` is the memory starting at
`buffer` (its 1024 bytes, then what follows them). A message is copied to the front, at
most 1024 bytes of it, and its full length is returned; `none` is a failed call, which
returns -1 and writes nothing. -/
def zmq_recv (memory : List Byte) (message : Option (List Byte)) : List Byte × Int :=
  match message with
  | none => (memory, -1)
  | some m => ((m.take 1024) ++ memory.drop (min m.length 1024), (m.length : Int))

/-- The constructor `std::string(char const*)`: the bytes before the first zero byte. -/
def cString (memory : List Byte) : List Byte :=
  memory.takeWhile (fun b => b ≠ 0)

/-- The call `s.substr(0, n)` with `n` an `int32_t` converted to `size_t`. -/
def substr0 (s : List Byte) (n : Int) : List Byte :=
  s.take (n % 18446744073709551616).toNat

/-- The text handed to `nlohmann::json::parse` (lines 110-113), with the memory after the
receive. -/
def telemetryInput (memory : List Byte) (message : Option (List Byte)) :
    List Byte × List Byte :=
  let received := zmq_recv memory message
  let INPUT_LENGTH := received.2
  let BUFFER_STR := cString received.1
  let INPUT := substr0 BUFFER_STR INPUT_LENGTH
  (received.1, INPUT)

/-- The ways a call into the JSON library ends other than by returning. -/
inductive JsonFailure
  | parse_error
  | type_error
  | assertion
deriving DecidableEq

/-- The JSON library (`json.hpp`) as the loop uses it: `parse`, the `const` subscript by key
and the conversion to `double`, each returning or failing. One fact about `parse` is
recorded: the empty text is not a JSON text. -/
structure JsonLibrary where
  Json : Type
  Double : Type
  parse : List Byte → Except JsonFailure Json
  subscript : Json → String → Except JsonFailure Json
  toDouble : Json → Except JsonFailure Double
  parse_empty : parse [] = Except.error JsonFailure.parse_error

/-- Lines 110-123, the body of the `while` loop. The result is `Except.error` when a library
call fails: the body has no `try`, nor has `main`, so the failure leaves the loop and ends
the process. Otherwise the memory after the receive and, under `VERBOSE`, the speed and
heading read from the text. -/
def telemetryIteration (lib : JsonLibrary) (VERBOSE : Bool) (memory : List Byte)
    (message : Option (List Byte)) :
    Except JsonFailure (List Byte × Option (lib.Double × lib.Double)) :=
  let input := telemetryInput memory message
  match lib.parse input.2 with
  | Except.error e => Except.error e
  | Except.ok INPUT_JSON =>
    if VERBOSE then
      match lib.subscript INPUT_JSON "shiman" with
      | Except.error e => Except.error e
      | Except.ok shiman =>
        match lib.subscript shiman "sog" with
        | Except.error e => Except.error e
        | Except.ok sog =>
          match lib.toDouble sog with
          | Except.error e => Except.error e
          | Except.ok SPEED =>
            match lib.subscript INPUT_JSON "shiman" with
            | Except.error e => Except.error e
            | Except.ok shiman2 =>
              match lib.subscript shiman2 "psdg" with
              | Except.error e => Except.error e
              | Except.ok psdg =>
                match lib.toDouble psdg with
                | Except.error e => Except.error e
                | Except.ok HEADING => Except.ok (input.1, some (SPEED, HEADING))
    else Except.ok (input.1, none)

/-- The loop goes on to its next iteration. -/
def proceeds {α : Type} (result : Except JsonFailure α) : Bool :=
  match result with
  | Except.ok _ => true
  | Except.error _ => false

/-! ## Predicates and concrete inputs used in the statements -/

/-- Each of the six stored values lies in the logical range of lines 44-49. -/
def withinLogicalRange (r : Requests) : Prop :=
  ∀ v ∈ r.snapshot, -100 ≤ v ∧ v ≤ 100

/-- The position of the envelope is a finite number in [-1, 1]. -/
def Envelope.nominal (envelope : Envelope) : Bool :=
  match envelope.position.toRat? with
  | some p => decide (-1 ≤ p ∧ p ≤ 1)
  | none => false

/-- The `float` 0.75 (bit pattern `0x3F400000`). -/
def threeQuarters : Binary32 := ⟨false, ⟨126, by decide⟩, ⟨4194304, by decide⟩⟩

/-- The `float` 2.0 (bit pattern `0x40000000`). -/
def two : Binary32 := ⟨false, ⟨128, by decide⟩, ⟨0, by decide⟩⟩

/-- A stand-in for the JSON library, used where a statement needs some library to exist: it
rejects the empty text, takes any other text as a value, and lets every subscript and
conversion succeed. -/
def stubLibrary : JsonLibrary where
  Json := List Byte
  Double := ℚ
  parse := fun text => if text = [] then Except.error JsonFailure.parse_error else Except.ok text
  subscript := fun json _ => Except.ok json
  toDouble := fun _ => Except.ok 0
  parse_empty := rfl

/-! ## Frame layout -/

theorem decode_bytes (x : I16) : decodeInt16LE x.byte0 x.byte1 = x.val := by
  obtain ⟨v, h1, h2⟩ := x
  simp only [decodeInt16LE, I16.byte0, I16.byte1, I16.bits]
  split_ifs <;> omega

theorem byte0_val (x : I16) : ((x.byte0.val : Nat) : Int) = x.val % 256 := by
  obtain ⟨v, h1, h2⟩ := x
  simp only [I16.byte0, I16.bits]
  omega

theorem byte1_val (x : I16) : ((x.byte1.val : Nat) : Int) = x.val / 256 % 256 := by
  obtain ⟨v, h1, h2⟩ := x
  simp only [I16.byte1, I16.bits]
  omega

theorem ofFn16 {α : Type} (f : Fin 16 → α) :
    List.ofFn f = [f 0, f 1, f 2, f 3, f 4, f 5, f 6, f 7, f 8, f 9, f 10, f 11, f 12, f 13,
      f 14, f 15] := by
  rfl

theorem encode_eq (stack : Fin 16 → Byte) (r : Requests) :
    encode stack r =
      [1, 7, r.starboardEngineRequest.byte0, r.starboardEngineRequest.byte1,
       r.portEngineRequest.byte0, r.portEngineRequest.byte1,
       r.starboardRudderRequest.byte0, r.starboardRudderRequest.byte1,
       r.portRudderRequest.byte0, r.portRudderRequest.byte1,
       r.tunnerThruster1Request.byte0, r.tunnerThruster1Request.byte1,
       r.tunnerThruster2Request.byte0, r.tunnerThruster2Request.byte1,
       stack 14, stack 15] := by
  rw [encode, ofFn16]
  rfl

theorem encode_length (stack : Fin 16 → Byte) (r : Requests) : (encode stack r).length = 16 := by
  rw [encode_eq]
  rfl

theorem encode_take14 (stack stack2 : Fin 16 → Byte) (r : Requests) :
    (encode stack r).take 14 = (encode stack2 r).take 14 := by
  rw [encode_eq, encode_eq]
  rfl

theorem encode_channel (stack : Fin 16 → Byte) (r : Requests) (d : Nat) (hd : d ≤ 5) :
    ∃ x : I16, x.val = r.channel d ∧ (encode stack r)[2 + 2 * d]? = some x.byte0 ∧
      (encode stack r)[2 + 2 * d + 1]? = some x.byte1 := by
  have h : d = 0 ∨ d = 1 ∨ d = 2 ∨ d = 3 ∨ d = 4 ∨ d = 5 := by omega
  rw [encode_eq]
  rcases h with h | h | h | h | h | h <;> subst h
  · exact ⟨r.starboardEngineRequest, rfl, rfl, rfl⟩
  · exact ⟨r.portEngineRequest, rfl, rfl, rfl⟩
  · exact ⟨r.starboardRudderRequest, rfl, rfl, rfl⟩
  · exact ⟨r.portRudderRequest, rfl, rfl, rfl⟩
  · exact ⟨r.tunnerThruster1Request, rfl, rfl, rfl⟩
  · exact ⟨r.tunnerThruster2Request, rfl, rfl, rfl⟩

/-! ## Channel dispatch -/

theorem set_channel (r : Requests) (c d : Nat) (v : I16) (hc : c ≤ 5) :
    (set r c v).channel d = if d = c then v.val else r.channel d := by
  have h : c = 0 ∨ c = 1 ∨ c = 2 ∨ c = 3 ∨ c = 4 ∨ c = 5 := by omega
  rcases h with h | h | h | h | h | h <;> subst h <;>
    rcases d with _ | _ | _ | _ | _ | _ | d <;>
    simp [set, Requests.channel, Requests.snapshot]

theorem set_unrecognised (r : Requests) (c : Nat) (v : I16) (hc : 5 < c) : set r c v = r := by
  unfold set
  have h0 : ¬ 0 = c := by omega
  have h1 : ¬ 1 = c := by omega
  have h2 : ¬ 2 = c := by omega
  have h3 : ¬ 3 = c := by omega
  have h4 : ¬ 4 = c := by omega
  have h5 : ¬ 5 = c := by omega
  simp [h0, h1, h2, h3, h4, h5]

theorem set_channel_ne (r : Requests) (c d : Nat) (v : I16) (h : c ≠ d) :
    (set r c v).channel d = r.channel d := by
  rcases Nat.lt_or_ge 5 c with hc | hc
  · rw [set_unrecognised r c v hc]
  · rw [set_channel r c d v hc, if_neg (fun e => h e.symm)]

theorem setAll_append (r : Requests) (pre post : List (Nat × I16)) :
    setAll r (pre ++ post) = setAll (setAll r pre) post := by
  induction pre generalizing r with
  | nil => rfl
  | cons call pre ih =>
    obtain ⟨c, v⟩ := call
    simp only [List.cons_append, setAll]
    exact ih _

theorem setAll_untouched (calls : List (Nat × I16)) (d : Nat) :
    ∀ r : Requests, (∀ call ∈ calls, call.1 ≠ d) → (setAll r calls).channel d = r.channel d := by
  induction calls with
  | nil => intro r _; rfl
  | cons call calls ih =>
    intro r h
    obtain ⟨c, v⟩ := call
    simp only [setAll]
    rw [ih _ (fun call hcall => h call (List.mem_cons_of_mem _ hcall))]
    exact set_channel_ne r c d v (h (c, v) (List.mem_cons_self _ _))

theorem handler_state (VERBOSE : Bool) (undef : Option ℚ → I16) (stack : Fin 16 → Byte)
    (r : Requests) (envelope : Envelope) :
    (onPedalPositionRequest VERBOSE undef stack r envelope).requests =
      set r envelope.senderStamp (static_cast_int16 undef (times100 envelope.position)) := rfl

theorem handler_sent (VERBOSE : Bool) (undef : Option ℚ → I16) (stack : Fin 16 → Byte)
    (r : Requests) (envelope : Envelope) :
    (onPedalPositionRequest VERBOSE undef stack r envelope).sent =
      [encode stack (onPedalPositionRequest VERBOSE undef stack r envelope).requests] := rfl

theorem handler_unrecognised (VERBOSE : Bool) (undef : Option ℚ → I16) (stack : Fin 16 → Byte)
    (r : Requests) (envelope : Envelope) (h : 5 < envelope.senderStamp) :
    (onPedalPositionRequest VERBOSE undef stack r envelope).requests = r := by
  rw [handler_state, set_unrecognised r _ _ h]

/-! ## Scaling -/

theorem roundHalfEven_intCast (n : Int) : roundHalfEven (n : ℚ) = n := by
  simp [roundHalfEven]

theorem roundBinary64_exact (n k : Int) (hn : |n| < 2 ^ 53) (hk : -1074 ≤ k) (hk2 : k ≤ 971) :
    roundBinary64 ((n : ℚ) * 2 ^ k) = some ((n : ℚ) * 2 ^ k) := by
  by_cases hn0 : n = 0
  · simp [roundBinary64, hn0]
  have h2 : (0 : ℚ) < 2 := by norm_num
  have h2ne : (2 : ℚ) ≠ 0 := by norm_num
  have hqne : (n : ℚ) * 2 ^ k ≠ 0 :=
    mul_ne_zero (Int.cast_ne_zero.2 hn0) (zpow_ne_zero _ h2ne)
  have hcast : |(n : ℚ)| < 2 ^ (53 : Int) := by
    have : ((|n| : Int) : ℚ) < ((2 ^ 53 : Int) : ℚ) := Int.cast_lt.2 hn
    rw [Int.cast_abs] at this
    rw [show (2 : ℚ) ^ (53 : Int) = ((2 ^ 53 : Int) : ℚ) by norm_num]
    exact this
  have habs : |(n : ℚ) * 2 ^ k| < 2 ^ (k + 53) := by
    rw [abs_mul, abs_of_pos (zpow_pos h2 k), zpow_add₀ h2ne, mul_comm]
    exact mul_lt_mul_of_pos_left hcast (zpow_pos h2 k)
  have hlog : Int.log 2 |(n : ℚ) * 2 ^ k| < k + 53 :=
    (Int.lt_zpow_iff_log_lt (by norm_num) (abs_pos.2 hqne)).1 (by simpa using habs)
  have he : ulpExponent ((n : ℚ) * 2 ^ k) ≤ k := by
    unfold ulpExponent
    exact max_le (by omega) hk
  have hbig : |(n : ℚ) * 2 ^ k| < 2 ^ 1024 := by
    refine lt_of_lt_of_le habs ?_
    have h := zpow_le_zpow_right₀ (by norm_num : (1 : ℚ) ≤ 2) (by omega : k + 53 ≤ 1024)
    rw [zpow_ofNat] at h
    exact h
  simp only [roundBinary64, if_neg hqne]
  generalize ulpExponent ((n : ℚ) * 2 ^ k) = e at he
  obtain ⟨j, hj⟩ := Int.le.dest he
  have hpe : (2 : ℚ) ^ e ≠ 0 := zpow_ne_zero _ h2ne
  have hsplit : (2 : ℚ) ^ k = 2 ^ e * 2 ^ j := by
    rw [← hj, zpow_add₀ h2ne, zpow_natCast]
  have hdiv : (n : ℚ) * 2 ^ k / 2 ^ e = ((n * 2 ^ j : Int) : ℚ) := by
    rw [hsplit]
    push_cast
    field_simp
    ring
  have hback : ((n * 2 ^ j : Int) : ℚ) * 2 ^ e = (n : ℚ) * 2 ^ k := by
    rw [← hdiv]
    field_simp
  rw [hdiv, roundHalfEven_intCast, hback, if_pos hbig]

theorem times100_exact (x : Binary32) (p : ℚ) (h : x.toRat? = some p) :
    times100 x = some (p * 100) := by
  obtain ⟨sign, ⟨E, hE⟩, ⟨F, hF⟩⟩ := x
  unfold Binary32.toRat? at h
  simp only at h
  by_cases h255 : E = 255
  · simp [h255] at h
  rw [if_neg h255] at h
  have hp := (Option.some.inj h).symm
  let m : Nat := if E = 0 then F else 8388608 + F
  let n : Int := (if sign then -1 else 1) * (m : Int) * 25
  let k : Int := (if E = 0 then 1 else (E : Int)) - 150 + 2
  have hm : m < 16777216 := by
    simp only [m]
    split_ifs <;> omega
  have hn : |n| < 2 ^ 53 := by
    simp only [n]
    rw [abs_mul, abs_mul]
    have h1 : |(if sign then (-1 : Int) else 1)| = 1 := by cases sign <;> simp
    rw [h1, one_mul, abs_of_nonneg (by positivity), abs_of_nonneg (by norm_num)]
    norm_num
    omega
  have hk1 : -1074 ≤ k := by
    simp only [k]
    split_ifs <;> omega
  have hk2 : k ≤ 971 := by
    simp only [k]
    split_ifs <;> omega
  have hq : p * 100 = (n : ℚ) * 2 ^ k := by
    rw [hp]
    simp only [n, k, m]
    rw [zpow_add₀ (by norm_num : (2 : ℚ) ≠ 0)]
    by_cases hE0 : E = 0 <;> cases sign <;> simp [hE0] <;> ring
  have hx : times100 ⟨sign, ⟨E, hE⟩, ⟨F, hF⟩⟩ = roundBinary64 (p * 100) := by
    simp only [times100, Binary32.toRat?, if_neg h255]
    rw [hp]
  rw [hx, hq]
  exact roundBinary64_exact n k hn hk1 hk2

theorem truncate_spec (q : ℚ) :
    (0 ≤ q → (0 : ℚ) ≤ truncate q ∧ (truncate q : ℚ) ≤ q ∧ q < truncate q + 1) ∧
    (q < 0 → q ≤ truncate q ∧ (truncate q : ℚ) ≤ 0 ∧ (truncate q : ℚ) - 1 < q) := by
  constructor
  · intro h
    rw [truncate, if_pos h]
    exact ⟨by exact_mod_cast Int.floor_nonneg.2 h, Int.floor_le q, Int.lt_floor_add_one q⟩
  · intro h
    rw [truncate, if_neg (not_le.2 h)]
    refine ⟨Int.le_ceil q, ?_, ?_⟩
    · have : ⌈q⌉ ≤ 0 := Int.ceil_le.2 (by simpa using h.le)
      exact_mod_cast this
    · have := Int.ceil_lt_add_one q
      linarith

theorem truncate_bound (q : ℚ) (b : Int) (hb : 0 ≤ b) (h1 : -(b : ℚ) ≤ q) (h2 : q ≤ b) :
    -b ≤ truncate q ∧ truncate q ≤ b := by
  obtain ⟨hpos, hneg⟩ := truncate_spec q
  rcases le_or_lt 0 q with h | h
  · obtain ⟨a1, a2, _⟩ := hpos h
    have a3 : (truncate q : ℚ) ≤ b := le_trans a2 h2
    have a4 : (0 : Int) ≤ truncate q := by exact_mod_cast a1
    have a5 : truncate q ≤ b := by exact_mod_cast a3
    omega
  · obtain ⟨a1, a2, _⟩ := hneg h
    have a3 : ((-b : Int) : ℚ) ≤ truncate q := by push_cast; exact le_trans h1 a1
    have a4 : truncate q ≤ (0 : Int) := by exact_mod_cast a2
    have a5 : -b ≤ truncate q := by exact_mod_cast a3
    omega

theorem truncate_intCast (n : Int) : truncate (n : ℚ) = n := by
  simp [truncate]

theorem static_cast_in_range (undef : Option ℚ → I16) (q : ℚ)
    (h : -32768 ≤ truncate q ∧ truncate q ≤ 32767) :
    (static_cast_int16 undef (some q)).val = truncate q := by
  simp [static_cast_int16, h]

theorem stored_nominal (undef : Option ℚ → I16) (x : Binary32) (p : ℚ)
    (hp : x.toRat? = some p) (h1 : -1 ≤ p) (h2 : p ≤ 1) :
    (static_cast_int16 undef (times100 x)).val = truncate (p * 100) ∧
      -100 ≤ truncate (p * 100) ∧ truncate (p * 100) ≤ 100 := by
  have hb := truncate_bound (p * 100) 100 (by norm_num) (by push_cast; linarith)
    (by push_cast; linarith)
  rw [times100_exact x p hp, static_cast_in_range undef _ ⟨by omega, by omega⟩]
  exact ⟨rfl, hb⟩

theorem threeQuarters_toRat : threeQuarters.toRat? = some (3 / 4) := by
  simp only [Binary32.toRat?, threeQuarters]
  norm_num

theorem two_toRat : two.toRat? = some 2 := by
  simp only [Binary32.toRat?, two]
  norm_num

theorem threeQuarters_stored (undef : Option ℚ → I16) :
    static_cast_int16 undef (times100 threeQuarters) = I16.ofInt 75 (by decide) := by
  obtain ⟨f1, -, -⟩ := stored_nominal undef threeQuarters (3 / 4) threeQuarters_toRat
    (by norm_num) (by norm_num)
  have f2 : truncate (3 / 4 * 100) = 75 := by
    rw [show ((3 : ℚ) / 4 * 100) = ((75 : Int) : ℚ) by norm_num, truncate_intCast]
  rw [f2] at f1
  exact Subtype.ext f1

theorem two_stored (undef : Option ℚ → I16) :
    (static_cast_int16 undef (times100 two)).val = 200 := by
  rw [times100_exact two 2 two_toRat]
  have h : ((2 : ℚ) * 100) = ((200 : Int) : ℚ) := by norm_num
  rw [h, static_cast_in_range undef _ (by rw [truncate_intCast]; decide), truncate_intCast]

/-! ## Range of the stored values -/

theorem withinLogicalRange_iff (r : Requests) :
    withinLogicalRange r ↔ ∀ c : Nat, c ≤ 5 → -100 ≤ r.channel c ∧ r.channel c ≤ 100 := by
  constructor
  · intro h c hc
    apply h
    have hc6 : c = 0 ∨ c = 1 ∨ c = 2 ∨ c = 3 ∨ c = 4 ∨ c = 5 := by omega
    rcases hc6 with h | h | h | h | h | h <;> subst h <;>
      simp [Requests.channel, Requests.snapshot]
  · intro h v hv
    simp only [Requests.snapshot, List.mem_cons, List.mem_singleton, List.not_mem_nil,
      or_false] at hv
    rcases hv with hv | hv | hv | hv | hv | hv
    · simpa [hv, Requests.channel, Requests.snapshot] using h 0 (by omega)
    · simpa [hv, Requests.channel, Requests.snapshot] using h 1 (by omega)
    · simpa [hv, Requests.channel, Requests.snapshot] using h 2 (by omega)
    · simpa [hv, Requests.channel, Requests.snapshot] using h 3 (by omega)
    · simpa [hv, Requests.channel, Requests.snapshot] using h 4 (by omega)
    · simpa [hv, Requests.channel, Requests.snapshot] using h 5 (by omega)

theorem initial_withinLogicalRange : withinLogicalRange Requests.initial := by
  intro v hv
  simp [Requests.snapshot, Requests.initial, I16.zero] at hv
  subst hv
  decide

theorem handler_keeps_range (VERBOSE : Bool) (undef : Option ℚ → I16)
    (stack : Fin 16 → Byte) (r : Requests) (envelope : Envelope) (hr : withinLogicalRange r)
    (hn : envelope.senderStamp ≤ 5 → envelope.nominal = true) :
    withinLogicalRange (onPedalPositionRequest VERBOSE undef stack r envelope).requests := by
  rw [handler_state]
  rcases Nat.lt_or_ge 5 envelope.senderStamp with h | h
  · rw [set_unrecognised r _ _ h]
    exact hr
  · have hnom := hn h
    unfold Envelope.nominal at hnom
    rw [withinLogicalRange_iff] at hr ⊢
    intro c hc
    rw [set_channel r _ c _ h]
    split_ifs with hcc
    · cases hp : envelope.position.toRat? with
      | none => simp [hp] at hnom
      | some p =>
        simp only [hp, decide_eq_true_eq] at hnom
        obtain ⟨e1, e2, e3⟩ := stored_nominal undef envelope.position p hp hnom.1 hnom.2
        rw [e1]
        exact ⟨e2, e3⟩
    · exact hr c hc

theorem deliverAll_keeps_range (VERBOSE : Bool) (undef : Option ℚ → I16) (ds : List Delivery) :
    ∀ r : Requests, withinLogicalRange r →
      (∀ d ∈ ds, d.envelope.senderStamp ≤ 5 → d.envelope.nominal = true) →
      withinLogicalRange (deliverAll VERBOSE undef r ds).1 := by
  induction ds with
  | nil => intro r hr _; exact hr
  | cons d ds ih =>
    intro r hr h
    simp only [deliverAll]
    apply ih
    · exact handler_keeps_range VERBOSE undef d.stack r d.envelope hr (h d (List.mem_cons_self _ _))
    · intro d2 hd2
      exact h d2 (List.mem_cons_of_mem _ hd2)

theorem threeQuarters_nominal (c : Nat) : (Envelope.mk c threeQuarters).nominal = true := by
  simp only [Envelope.nominal, threeQuarters_toRat]
  norm_num

theorem two_delivered (VERBOSE : Bool) (undef : Option ℚ → I16) :
    (deliverAll VERBOSE undef Requests.initial [⟨⟨0, two⟩, fun _ => 0⟩]).1.snapshot
      = [200, 0, 0, 0, 0, 0] := by
  simp only [deliverAll, handler_state, set, if_true, Requests.snapshot, two_stored]
  rfl

/-! ## Telemetry text -/

theorem telemetryInput_terminated (memory payload rest : List Byte)
    (hlen : payload.length ≤ 1023) (hnz : ∀ b ∈ payload, b ≠ 0)
    (hterm : memory.drop payload.length = 0 :: rest) :
    (telemetryInput memory (some payload)).2 = payload := by
  have h1 : payload.take 1024 = payload := List.take_of_length_le (by omega)
  have h2 : min payload.length 1024 = payload.length := by omega
  have h3 : cString (payload ++ 0 :: rest) = payload := by
    unfold cString
    rw [List.takeWhile_append_of_pos (by simpa using hnz)]
    simp
  have h4 : ((payload.length : Int) % 18446744073709551616).toNat = payload.length := by omega
  simp only [telemetryInput, zmq_recv, substr0, h1, h2, hterm, h3, h4]
  exact List.take_of_length_le (le_refl _)

theorem telemetryInput_embedded_zero (memory payload : List Byte) (k : Nat)
    (hlen : payload.length ≤ 1024) (hk : payload[k]? = some 0)
    (hnz : ∀ b ∈ payload.take k, b ≠ 0) :
    (telemetryInput memory (some payload)).2 = payload.take k ∧
      (telemetryInput memory (some payload)).2 ≠ payload := by
  have hkl : k < payload.length := by
    by_contra hcon
    rw [List.getElem?_eq_none (by omega)] at hk
    exact Option.noConfusion hk
  have hsplit : payload = payload.take k ++ 0 :: payload.drop (k + 1) := by
    have h0 : payload[k] = 0 := by
      rw [List.getElem?_eq_getElem hkl] at hk
      exact Option.some.inj hk
    conv_lhs => rw [← List.take_append_drop k payload]
    rw [List.drop_eq_getElem_cons hkl, h0]
  have h1 : payload.take 1024 = payload := List.take_of_length_le hlen
  have h3 : cString (payload ++ memory.drop (min payload.length 1024)) = payload.take k := by
    unfold cString
    conv_lhs => rw [hsplit]
    rw [List.append_assoc, List.takeWhile_append_of_pos (by simpa using hnz)]
    simp
  have h4 : ((payload.length : Int) % 18446744073709551616).toNat = payload.length := by omega
  have htext : (telemetryInput memory (some payload)).2 = payload.take k := by
    simp only [telemetryInput, zmq_recv, substr0, h1, h3, h4]
    exact List.take_of_length_le (by rw [List.length_take]; omega)
  refine ⟨htext, ?_⟩
  rw [htext]
  intro hcon
  have := congrArg List.length hcon
  rw [List.length_take] at this
  omega

theorem telemetryInput_braces :
    (telemetryInput (List.replicate 1024 0) (some [123, 125])).2 = [123, 125] :=
  telemetryInput_terminated (List.replicate 1024 0) [123, 125] (List.replicate 1021 0)
    (by decide) (by simp) (by rw [List.drop_replicate]; rfl)

theorem empty_message_fails (lib : JsonLibrary) (VERBOSE : Bool) (memory : List Byte) :
    telemetryIteration lib VERBOSE memory (some []) = Except.error JsonFailure.parse_error := by
  have h : (telemetryInput memory (some [])).2 = [] := by
    simp [telemetryInput, zmq_recv, substr0]
  simp only [telemetryIteration, h, lib.parse_empty]

/-! ## Command frames: the claims -/

/-- Claim C1. For every prior state, whatever bytes the frame buffer held, every channel
`c` in 0..5 and every value `v` in [-100, 100], the frame encoded after `set c v` has 16
bytes, byte 0 is 1, byte 1 is 7, the bytes at offsets `2+2c` and `2+2c+1` are the low and
high byte of the 16-bit two's-complement form of `v` (they decode back to `v`), and for each
other channel `d` the bytes at `2+2d`, `2+2d+1` are the little-endian form of the value `d`
held before the call. -/
theorem frame_after_set (stack : Fin 16 → Byte) (r : Requests) (c : Nat) (v : I16)
    (hc : c ≤ 5) (hv : -100 ≤ v.val ∧ v.val ≤ 100) :
    (encode stack (set r c v)).length = 16 ∧
    (encode stack (set r c v))[0]? = some 1 ∧
    (encode stack (set r c v))[1]? = some 7 ∧
    (∃ lo hi : Byte, (encode stack (set r c v))[2 + 2 * c]? = some lo ∧
      (encode stack (set r c v))[2 + 2 * c + 1]? = some hi ∧
      (lo.val : Int) = v.val % 256 ∧ (hi.val : Int) = v.val / 256 % 256 ∧
      (0 ≤ v.val → (lo.val : Int) = v.val ∧ hi.val = 0) ∧
      (v.val < 0 → (lo.val : Int) = v.val + 256 ∧ hi.val = 255) ∧
      decodeInt16LE lo hi = v.val) ∧
    ∀ d : Nat, d ≤ 5 → d ≠ c →
      ∃ lo hi : Byte, (encode stack (set r c v))[2 + 2 * d]? = some lo ∧
        (encode stack (set r c v))[2 + 2 * d + 1]? = some hi ∧
        (lo.val : Int) = r.channel d % 256 ∧ (hi.val : Int) = r.channel d / 256 % 256 ∧
        decodeInt16LE lo hi = r.channel d := by
  refine ⟨encode_length _ _, by rw [encode_eq]; rfl, by rw [encode_eq]; rfl, ?_, ?_⟩
  · obtain ⟨x, hx, h0, h1⟩ := encode_channel stack (set r c v) c hc
    rw [set_channel r c c v hc, if_pos rfl] at hx
    have hxv : x = v := Subtype.ext hx
    subst hxv
    have b0 := byte0_val x
    have b1 := byte1_val x
    refine ⟨x.byte0, x.byte1, h0, h1, b0, b1, ?_, ?_, decode_bytes x⟩
    · intro hpos
      omega
    · intro hneg
      omega
  · intro d hd hdc
    obtain ⟨x, hx, h0, h1⟩ := encode_channel stack (set r c v) d hd
    rw [set_channel r c d v hc, if_neg hdc] at hx
    refine ⟨x.byte0, x.byte1, h0, h1, ?_, ?_, ?_⟩
    · rw [byte0_val, hx]
    · rw [byte1_val, hx]
    · rw [decode_bytes, hx]

theorem frame_after_set_witness :
    (2 : Nat) ≤ 5 ∧ (-100 ≤ (-30 : Int) ∧ (-30 : Int) ≤ 100) ∧
    (encode (fun _ => 0) (set Requests.initial 2 (I16.ofInt (-30) (by decide)))).length = 16 ∧
    encode (fun _ => 0) (set Requests.initial 2 (I16.ofInt (-30) (by decide)))
      = [1, 7, 0, 0, 0, 0, 226, 255, 0, 0, 0, 0, 0, 0, 0, 0] :=
  ⟨by decide, by decide,
    (frame_after_set (fun _ => 0) Requests.initial 2 (I16.ofInt (-30) (by decide))
      (by decide) (by decide)).1,
    by rw [encode_eq]; rfl⟩

/-- Claim C2. Starting from the all-zero state, after any sequence of `set` calls on
channels 0..5 each channel holds the value of the last call made on it, a channel no call
was made on holds 0, and `set 0 50`, `set 1 (-30)`, `set 0 10` gives the snapshot
`[10, -30, 0, 0, 0, 0]`. -/
theorem last_write_wins (calls : List (Nat × I16)) (hcalls : ∀ call ∈ calls, call.1 ≤ 5) :
    (∀ (pre post : List (Nat × I16)) (c : Nat) (v : I16),
      calls = pre ++ (c, v) :: post → (∀ call ∈ post, call.1 ≠ c) →
      (setAll Requests.initial calls).channel c = v.val) ∧
    (∀ d : Nat, (∀ call ∈ calls, call.1 ≠ d) → (setAll Requests.initial calls).channel d = 0) ∧
    (setAll Requests.initial
      [(0, I16.ofInt 50 (by decide)), (1, I16.ofInt (-30) (by decide)),
       (0, I16.ofInt 10 (by decide))]).snapshot = [10, -30, 0, 0, 0, 0] := by
  refine ⟨?_, ?_, by decide⟩
  · intro pre post c v hsplit hpost
    have hc : c ≤ 5 := hcalls (c, v) (by rw [hsplit]; simp)
    rw [hsplit, setAll_append]
    simp only [setAll]
    rw [setAll_untouched post c _ hpost, set_channel _ c c v hc, if_pos rfl]
  · intro d hd
    rw [setAll_untouched calls d _ hd]
    rcases d with _ | _ | _ | _ | _ | _ | d <;> rfl

theorem last_write_wins_witness :
    (∀ call ∈ [((0 : Nat), I16.ofInt 50 (by decide)), (1, I16.ofInt (-30) (by decide)),
        (0, I16.ofInt 10 (by decide))], call.1 ≤ 5) ∧
    (setAll Requests.initial [(0, I16.ofInt 50 (by decide)), (1, I16.ofInt (-30) (by decide)),
        (0, I16.ofInt 10 (by decide))]).channel 0 = 10 ∧
    (setAll Requests.initial [(0, I16.ofInt 50 (by decide)), (1, I16.ofInt (-30) (by decide)),
        (0, I16.ofInt 10 (by decide))]).channel 3 = 0 :=
  ⟨by decide,
    (last_write_wins [(0, I16.ofInt 50 (by decide)), (1, I16.ofInt (-30) (by decide)),
        (0, I16.ofInt 10 (by decide))] (by decide)).1
      [(0, I16.ofInt 50 (by decide)), (1, I16.ofInt (-30) (by decide))] [] 0
      (I16.ofInt 10 (by decide)) rfl (by simp),
    (last_write_wins [(0, I16.ofInt 50 (by decide)), (1, I16.ofInt (-30) (by decide)),
        (0, I16.ofInt 10 (by decide))] (by decide)).2.1 3 (by decide)⟩

/-- Claim C3. For every state, every sender stamp outside 0..5 and every position, the
handler leaves all six stored values unchanged. -/
theorem unrecognised_stamp_keeps_state (VERBOSE : Bool) (undef : Option ℚ → I16)
    (stack : Fin 16 → Byte) (r : Requests) (envelope : Envelope) (h : 5 < envelope.senderStamp) :
    (onPedalPositionRequest VERBOSE undef stack r envelope).requests = r ∧
      (onPedalPositionRequest VERBOSE undef stack r envelope).requests.snapshot = r.snapshot := by
  rw [handler_unrecognised VERBOSE undef stack r envelope h]
  exact ⟨rfl, rfl⟩

theorem unrecognised_stamp_keeps_state_witness :
    5 < (Envelope.mk 6 threeQuarters).senderStamp ∧
    (onPedalPositionRequest false (fun _ => I16.zero) (fun _ => 0) Requests.initial
      ⟨6, threeQuarters⟩).requests = Requests.initial :=
  ⟨by decide,
    (unrecognised_stamp_keeps_state false (fun _ => I16.zero) (fun _ => 0) Requests.initial
      ⟨6, threeQuarters⟩ (by decide)).1⟩

/-- Claim C4. For every message with sender stamp `c` in 0..5 and finite position `p` in
[-1, 1], the value stored on channel `c` is `p * 100` truncated toward zero (between 0 and
`p * 100`, less than 1 away from it), the other channels keep their values, and exactly one
frame of 16 bytes is sent. For stamp 4 and position 0.75 on the initial state the stored
values become `[0, 0, 0, 0, 75, 0]` and the one frame sent has bytes 10 and 11 equal to 75
and 0. -/
theorem scaled_position_stored (VERBOSE : Bool) (undef : Option ℚ → I16) (stack : Fin 16 → Byte)
    (r : Requests) (envelope : Envelope) (p : ℚ) (hc : envelope.senderStamp ≤ 5)
    (hp : envelope.position.toRat? = some p) (h1 : -1 ≤ p) (h2 : p ≤ 1) :
    ((onPedalPositionRequest VERBOSE undef stack r envelope).requests.channel envelope.senderStamp
        = truncate (p * 100) ∧
      (0 ≤ p → (0 : ℚ) ≤ truncate (p * 100) ∧ (truncate (p * 100) : ℚ) ≤ p * 100 ∧
        p * 100 < truncate (p * 100) + 1) ∧
      (p < 0 → p * 100 ≤ truncate (p * 100) ∧ (truncate (p * 100) : ℚ) ≤ 0 ∧
        (truncate (p * 100) : ℚ) - 1 < p * 100) ∧
      (∀ d : Nat, d ≠ envelope.senderStamp →
        (onPedalPositionRequest VERBOSE undef stack r envelope).requests.channel d = r.channel d) ∧
      ∃ frame : List Byte,
        (onPedalPositionRequest VERBOSE undef stack r envelope).sent = [frame] ∧
        frame.length = 16) ∧
    (threeQuarters.toRat? = some (3 / 4) ∧
      (onPedalPositionRequest VERBOSE undef stack Requests.initial
        ⟨4, threeQuarters⟩).requests.snapshot = [0, 0, 0, 0, 75, 0] ∧
      ∃ frame : List Byte,
        (onPedalPositionRequest VERBOSE undef stack Requests.initial
          ⟨4, threeQuarters⟩).sent = [frame] ∧
        frame.length = 16 ∧ frame[10]? = some 75 ∧ frame[11]? = some 0) := by
  obtain ⟨e1, -, -⟩ := stored_nominal undef envelope.position p hp h1 h2
  obtain ⟨tpos, tneg⟩ := truncate_spec (p * 100)
  refine ⟨⟨?_, ?_, ?_, ?_, _, handler_sent VERBOSE undef stack r envelope, encode_length _ _⟩, ?_⟩
  · rw [handler_state, set_channel r _ _ _ hc, if_pos rfl, e1]
  · intro h0
    exact tpos (by positivity)
  · intro h0
    exact tneg (by linarith)
  · intro d hd
    rw [handler_state, set_channel r _ _ _ hc, if_neg hd]
  · have f3 := threeQuarters_stored undef
    refine ⟨threeQuarters_toRat, ?_, _, handler_sent VERBOSE undef stack _ _,
      encode_length _ _, ?_, ?_⟩
    · rw [handler_state, f3]
      rfl
    · rw [handler_state, f3, encode_eq]
      rfl
    · rw [handler_state, f3, encode_eq]
      rfl

theorem scaled_position_stored_witness :
    (Envelope.mk 4 threeQuarters).senderStamp ≤ 5 ∧
    (Envelope.mk 4 threeQuarters).position.toRat? = some (3 / 4) ∧
    (-1 : ℚ) ≤ 3 / 4 ∧ (3 / 4 : ℚ) ≤ 1 ∧
    (onPedalPositionRequest false (fun _ => I16.zero) (fun _ => 0) Requests.initial
      ⟨4, threeQuarters⟩).requests.channel 4 = truncate (3 / 4 * 100) :=
  ⟨by decide, threeQuarters_toRat, by norm_num, by norm_num,
    (scaled_position_stored false (fun _ => I16.zero) (fun _ => 0) Requests.initial
      ⟨4, threeQuarters⟩ (3 / 4) (by decide) threeQuarters_toRat (by norm_num)
      (by norm_num)).1.1⟩

/-- Claim C5, evaluated on the code. Bytes 14 and 15 of the frame are never written: they
are whatever the frame buffer held on entry. With the all-zero state, a buffer holding 255
everywhere gives a frame ending in 255, 255 and a buffer holding 0 gives one ending in
0, 0, so the frame is not a function of the six values alone. -/
theorem reserved_bytes_come_from_stack :
    encode (fun _ => 255) Requests.initial
      = [1, 7, 0, 0, 0, 0, 0, 0, 0, 0, 0, 0, 0, 0, 255, 255] ∧
    encode (fun _ => 0) Requests.initial
      = [1, 7, 0, 0, 0, 0, 0, 0, 0, 0, 0, 0, 0, 0, 0, 0] ∧
    encode (fun _ => 255) Requests.initial ≠ encode (fun _ => 0) Requests.initial ∧
    (∀ (stack : Fin 16 → Byte) (r : Requests),
      (encode stack r)[14]? = some (stack 14) ∧ (encode stack r)[15]? = some (stack 15)) := by
  have ha : encode (fun _ => 255) Requests.initial
      = [1, 7, 0, 0, 0, 0, 0, 0, 0, 0, 0, 0, 0, 0, 255, 255] := by rw [encode_eq]; rfl
  have hb : encode (fun _ => 0) Requests.initial
      = [1, 7, 0, 0, 0, 0, 0, 0, 0, 0, 0, 0, 0, 0, 0, 0] := by rw [encode_eq]; rfl
  refine ⟨ha, hb, ?_, ?_⟩
  · rw [ha, hb]
    decide
  · intro stack r
    rw [encode_eq]
    exact ⟨rfl, rfl⟩

/-- Claim C6 as stated fails: one message on channel 0 with position 2.0 leaves 200 in the
first stored value, whatever the platform does on undefined conversions, so the values do
not stay in [-100, 100] for every sequence of messages. -/
theorem range_invariant_counterexample :
    (∀ (VERBOSE : Bool) (undef : Option ℚ → I16),
      (deliverAll VERBOSE undef Requests.initial [⟨⟨0, two⟩, fun _ => 0⟩]).1.snapshot
        = [200, 0, 0, 0, 0, 0]) ∧
    ¬ ∀ (VERBOSE : Bool) (undef : Option ℚ → I16) (ds : List Delivery),
      withinLogicalRange (deliverAll VERBOSE undef Requests.initial ds).1 := by
  refine ⟨two_delivered, ?_⟩
  intro hall
  have h := hall false (fun _ => I16.zero) [⟨⟨0, two⟩, fun _ => 0⟩] 200
  rw [two_delivered] at h
  have := h (by simp)
  omega

/-- Claim C6, amended. Starting from the all-zero state, after every sequence of messages
in which each message on a channel 0..5 carries a finite position in [-1, 1], each of the
six stored values lies in [-100, 100]. -/
theorem range_invariant_for_nominal_positions (VERBOSE : Bool) (undef : Option ℚ → I16)
    (ds : List Delivery)
    (h : ∀ d ∈ ds, d.envelope.senderStamp ≤ 5 → d.envelope.nominal = true) :
    withinLogicalRange (deliverAll VERBOSE undef Requests.initial ds).1 :=
  deliverAll_keeps_range VERBOSE undef ds Requests.initial initial_withinLogicalRange h

theorem range_invariant_for_nominal_positions_witness :
    (∀ d ∈ [Delivery.mk ⟨4, threeQuarters⟩ (fun _ => 0), Delivery.mk ⟨9, two⟩ (fun _ => 0)],
      d.envelope.senderStamp ≤ 5 → d.envelope.nominal = true) ∧
    withinLogicalRange (deliverAll false (fun _ => I16.zero) Requests.initial
      [Delivery.mk ⟨4, threeQuarters⟩ (fun _ => 0), Delivery.mk ⟨9, two⟩ (fun _ => 0)]).1 :=
  have hyp : ∀ d ∈ [Delivery.mk ⟨4, threeQuarters⟩ (fun _ => 0),
      Delivery.mk ⟨9, two⟩ (fun _ => 0)],
      d.envelope.senderStamp ≤ 5 → d.envelope.nominal = true := by
    intro d hd hs
    simp only [List.mem_cons, List.mem_singleton, List.not_mem_nil, or_false] at hd
    rcases hd with hd | hd
    · rw [hd]
      exact threeQuarters_nominal 4
    · rw [hd] at hs
      exact absurd hs (by decide)
  ⟨hyp, range_invariant_for_nominal_positions false (fun _ => I16.zero) _ hyp⟩

/-- Claim C10. Every delivered message makes the handler send exactly one frame of 16
bytes. When the sender stamp is outside 0..5 the state is unchanged and bytes 0-13 of the
frame are the encoding of that unchanged state: 1, 7, then each channel value in
little-endian form, independent of what the frame buffer held. -/
theorem every_delivery_sends_one_frame (VERBOSE : Bool) (undef : Option ℚ → I16)
    (stack : Fin 16 → Byte) (r : Requests) (envelope : Envelope) :
    (∃ frame : List Byte,
      (onPedalPositionRequest VERBOSE undef stack r envelope).sent = [frame] ∧ frame.length = 16) ∧
    (5 < envelope.senderStamp →
      (onPedalPositionRequest VERBOSE undef stack r envelope).requests = r ∧
      ∃ frame : List Byte,
        (onPedalPositionRequest VERBOSE undef stack r envelope).sent = [frame] ∧
        frame[0]? = some 1 ∧ frame[1]? = some 7 ∧
        (∀ d : Nat, d ≤ 5 → ∃ lo hi : Byte, frame[2 + 2 * d]? = some lo ∧
          frame[2 + 2 * d + 1]? = some hi ∧ decodeInt16LE lo hi = r.channel d) ∧
        ∀ stack2 : Fin 16 → Byte, frame.take 14 = (encode stack2 r).take 14) := by
  refine ⟨⟨_, handler_sent VERBOSE undef stack r envelope, encode_length _ _⟩, ?_⟩
  intro h
  have hst := handler_unrecognised VERBOSE undef stack r envelope h
  refine ⟨hst, encode stack r, ?_, by rw [encode_eq]; rfl, by rw [encode_eq]; rfl, ?_, ?_⟩
  · rw [handler_sent, hst]
  · intro d hd
    obtain ⟨x, hx, h0, h1⟩ := encode_channel stack r d hd
    exact ⟨x.byte0, x.byte1, h0, h1, by rw [decode_bytes, hx]⟩
  · intro stack2
    exact encode_take14 stack stack2 r

theorem every_delivery_sends_one_frame_witness :
    5 < (Envelope.mk 7 two).senderStamp ∧
    (onPedalPositionRequest false (fun _ => I16.zero) (fun _ => 0) Requests.initial
      ⟨7, two⟩).requests = Requests.initial :=
  ⟨by decide,
    ((every_delivery_sends_one_frame false (fun _ => I16.zero) (fun _ => 0) Requests.initial
      ⟨7, two⟩).2 (by decide)).1⟩

/-! ## Endpoints and telemetry: the claims -/

/-- Claim C8 as stated fails: with `--cid=111 --seaman_ip=192.168.0.1` the datagram sender
is bound to port 8888 and the subscriber connects to `tcp://192.168.0.1:43000`, so it is
not the case that frames go to port 43000 and the subscription to port 8888. -/
theorem endpoints_counterexample :
    mainSetup (fun _ => some 111) [("cid", "111"), ("seaman_ip", "192.168.0.1")]
      = Startup.running ⟨false, 111, "192.168.0.1", 8888, "tcp://192.168.0.1:43000"⟩ ∧
    ¬ ∀ (stoi : String → Option Int) (commandlineArguments : List (String × String))
        (g : Gateway), mainSetup stoi commandlineArguments = Startup.running g →
        g.senderPort = 43000 ∧
        g.ZMQ_ADDRESS = "tcp://" ++ lookup commandlineArguments "seaman_ip" ++ ":8888" := by
  refine ⟨by decide, ?_⟩
  intro hall
  have h := hall (fun _ => some 111) [("cid", "111"), ("seaman_ip", "192.168.0.1")]
    ⟨false, 111, "192.168.0.1", 8888, "tcp://192.168.0.1:43000"⟩ (by decide)
  exact absurd h.1 (by decide)

/-- Claim C8, amended. For every configuration in which `cid` and `seaman_ip` are given
(and `cid` is a number), the command frames are sent as UDP datagrams to port 8888 of the
simulator host, and the telemetry subscribe connection is made to port 43000 of the
simulator host. -/
theorem endpoints (stoi : String → Option Int) (commandlineArguments : List (String × String))
    (n : Int) (hcid : count commandlineArguments "cid" ≠ 0)
    (hip : count commandlineArguments "seaman_ip" ≠ 0)
    (hstoi : stoi (lookup commandlineArguments "cid") = some n) :
    ∃ g : Gateway, mainSetup stoi commandlineArguments = Startup.running g ∧
      g.senderHost = lookup commandlineArguments "seaman_ip" ∧ g.senderPort = 8888 ∧
      g.ZMQ_ADDRESS = "tcp://" ++ lookup commandlineArguments "seaman_ip" ++ ":43000" := by
  have h : ¬ (0 = count commandlineArguments "cid" ∨
      0 = count commandlineArguments "seaman_ip") := by
    rintro (h | h)
    · exact hcid h.symm
    · exact hip h.symm
  refine ⟨_, by rw [mainSetup, if_neg h, hstoi], rfl, rfl, ?_⟩
  simp only
  rw [show toString TCP_PORT = "43000" by decide, String.append_assoc,
    show ":" ++ "43000" = ":43000" by decide]

theorem endpoints_witness :
    count [("cid", "111"), ("seaman_ip", "192.168.0.1")] "cid" ≠ 0 ∧
    count [("cid", "111"), ("seaman_ip", "192.168.0.1")] "seaman_ip" ≠ 0 ∧
    (fun _ : String => some (111 : Int))
      (lookup [("cid", "111"), ("seaman_ip", "192.168.0.1")] "cid") = some 111 ∧
    ∃ g : Gateway,
      mainSetup (fun _ => some 111) [("cid", "111"), ("seaman_ip", "192.168.0.1")]
        = Startup.running g ∧
      g.senderHost = lookup [("cid", "111"), ("seaman_ip", "192.168.0.1")] "seaman_ip" ∧
      g.senderPort = 8888 ∧
      g.ZMQ_ADDRESS
        = "tcp://" ++ lookup [("cid", "111"), ("seaman_ip", "192.168.0.1")] "seaman_ip"
          ++ ":43000" :=
  ⟨by decide, by decide, rfl,
    endpoints (fun _ => some 111) [("cid", "111"), ("seaman_ip", "192.168.0.1")] 111
      (by decide) (by decide) rfl⟩

/-- Claim C7 as stated fails: on an empty message the text handed to `parse` is empty,
`parse` fails on it, and the failure leaves the loop body; this holds for every JSON library
that rejects the empty text, with and without the verbose flag. -/
theorem decode_failure_counterexample :
    ¬ ∃ (lib : JsonLibrary) (VERBOSE : Bool),
      proceeds (telemetryIteration lib VERBOSE (List.replicate 1024 0) (some [])) = true := by
  rintro ⟨lib, VERBOSE, h⟩
  rw [empty_message_fails] at h
  exact Bool.noConfusion h

/-- Claim C7, amended. One iteration of the telemetry loop goes on to the next message
exactly when `parse` accepts the text and, under the verbose flag, the subscripts
`"shiman"`, `"sog"`, `"psdg"` and both conversions to `double` succeed; in every other case
the failure of the library call leaves the loop. -/
theorem iteration_proceeds_iff (lib : JsonLibrary) (VERBOSE : Bool) (memory : List Byte)
    (message : Option (List Byte)) :
    proceeds (telemetryIteration lib VERBOSE memory message) = true ↔
      ∃ json : lib.Json, lib.parse (telemetryInput memory message).2 = Except.ok json ∧
        (VERBOSE = true → ∃ (shiman sog psdg : lib.Json) (speed heading : lib.Double),
          lib.subscript json "shiman" = Except.ok shiman ∧
          lib.subscript shiman "sog" = Except.ok sog ∧ lib.toDouble sog = Except.ok speed ∧
          lib.subscript shiman "psdg" = Except.ok psdg ∧
          lib.toDouble psdg = Except.ok heading) := by
  cases hparse : lib.parse (telemetryInput memory message).2 with
  | error e => simp [telemetryIteration, proceeds, hparse]
  | ok json =>
    cases VERBOSE with
    | false => simp [telemetryIteration, proceeds, hparse]
    | true =>
      cases h1 : lib.subscript json "shiman" with
      | error e => simp [telemetryIteration, proceeds, hparse, h1]
      | ok shiman =>
        cases h2 : lib.subscript shiman "sog" with
        | error e => simp [telemetryIteration, proceeds, hparse, h1, h2]
        | ok sog =>
          cases h3 : lib.toDouble sog with
          | error e => simp [telemetryIteration, proceeds, hparse, h1, h2, h3]
          | ok speed =>
            cases h4 : lib.subscript shiman "psdg" with
            | error e => simp [telemetryIteration, proceeds, hparse, h1, h2, h3, h4]
            | ok psdg =>
              cases h5 : lib.toDouble psdg with
              | error e => simp [telemetryIteration, proceeds, hparse, h1, h2, h3, h4, h5]
              | ok heading => simp [telemetryIteration, proceeds, hparse, h1, h2, h3, h4, h5]

theorem iteration_proceeds_iff_witness :
    proceeds (telemetryIteration stubLibrary true (List.replicate 1024 0)
      (some [123, 125])) = true :=
  (iteration_proceeds_iff stubLibrary true (List.replicate 1024 0) (some [123, 125])).2
    ⟨[123, 125], by rw [telemetryInput_braces]; rfl,
      fun _ => ⟨[123, 125], [123, 125], [123, 125], (0 : ℚ), (0 : ℚ), rfl, rfl, rfl, rfl, rfl⟩⟩

/-- Claim C9. With the text built as the bytes before the first zero byte, then cut to the
received length: a payload of at most 1023 bytes without a zero byte, followed in the buffer
by a zero byte, reaches the decoder unchanged; a payload that fits the buffer and has its
first zero byte at index `k` reaches the decoder as its first `k` bytes only, which differs
from the payload; for instance the payload `{`, zero, `}` arrives as `{`. -/
theorem text_mis_truncated_at_zero_byte :
    (∀ (memory payload : List Byte), payload.length ≤ 1023 → (∀ b ∈ payload, b ≠ 0) →
      memory[payload.length]? = some 0 →
      (telemetryInput memory (some payload)).2 = payload) ∧
    (∀ (memory payload : List Byte) (k : Nat), payload.length ≤ 1024 →
      payload[k]? = some 0 → (∀ b ∈ payload.take k, b ≠ 0) →
      (telemetryInput memory (some payload)).2 = payload.take k ∧
      (telemetryInput memory (some payload)).2 ≠ payload) ∧
    (telemetryInput (List.replicate 1024 0) (some [123, 0, 125])).2 = [123] := by
  refine ⟨?_, telemetryInput_embedded_zero, ?_⟩
  · intro memory payload hlen hnz hterm
    have hlt : payload.length < memory.length := by
      by_contra hcon
      rw [List.getElem?_eq_none (by omega)] at hterm
      exact Option.noConfusion hterm
    have h0 : memory[payload.length] = 0 := by
      rw [List.getElem?_eq_getElem hlt] at hterm
      exact Option.some.inj hterm
    exact telemetryInput_terminated memory payload (memory.drop (payload.length + 1)) hlen hnz
      (by rw [List.drop_eq_getElem_cons hlt, h0])
  · exact (telemetryInput_embedded_zero (List.replicate 1024 0) [123, 0, 125] 1 (by simp) rfl
      (by simp)).1

theorem text_mis_truncated_at_zero_byte_witness :
    ([123, 125] : List Byte).length ≤ 1023 ∧ (∀ b ∈ ([123, 125] : List Byte), b ≠ 0) ∧
    (List.replicate 1024 (0 : Byte))[([123, 125] : List Byte).length]? = some 0 ∧
    (telemetryInput (List.replicate 1024 0) (some [123, 125])).2 = [123, 125] :=
  have h1 : ([123, 125] : List Byte).length ≤ 1023 := by decide
  have h2 : ∀ b ∈ ([123, 125] : List Byte), b ≠ 0 := by simp
  have h3 : (List.replicate 1024 (0 : Byte))[([123, 125] : List Byte).length]? = some 0 := by
    rw [List.getElem?_replicate]
    rfl
  ⟨h1, h2, h3, text_mis_truncated_at_zero_byte.1 (List.replicate 1024 0) [123, 125] h1 h2 h3⟩

end Seaman
